import Mathlib

/-!
# Verification of the Brick regridding and padding subsystem

Shallow embedding of `DVIDSparkServices/io_util/brick.py`,
`DVIDSparkServices/io_util/brickwall.py` and the retry policy of
`DVIDSparkServices/io_util/volume_service/dvid_volume_service.py`.

Conventions of the embedding:
* 3-vectors of integer voxel coordinates are a structure `V3` (z, y, x order).
* Boxes are half-open intervals `[lo, hi)` (`Box3`), as in the source.
* A voxel buffer is a total function `V3 → α` indexed in *local* coordinates
  (origin 0), mirroring a numpy array; shapes are implicit.  `extract_subvol`
  and `overwrite_subvol` are translated to the corresponding index shifts.
* numpy's integer `//` and `%` are Python floor-division/floor-mod; for the
  positive divisors used throughout (grid block shapes) these agree with
  Lean's Euclidean `Int.ediv`/`Int.emod`, written `/` and `%` below.
* Python exceptions (`assert`, `RuntimeError`) are modelled with
  `Except String`.
* The helpers imported from the external `neuclease.util` library
  (`box_intersection`, `boxes_from_grid`, `extract_subvol`,
  `overwrite_subvol`, `Grid`) are modelled from spec §4.1–§4.2, which
  specifies their contracts.
-/

/-- A 3-vector of integers, in (z, y, x) order as used by the source. -/
structure V3 where
  z : ℤ
  y : ℤ
  x : ℤ
  deriving DecidableEq, Repr

namespace V3

def add (a b : V3) : V3 := ⟨a.z + b.z, a.y + b.y, a.x + b.x⟩

def sub (a b : V3) : V3 := ⟨a.z - b.z, a.y - b.y, a.x - b.x⟩

def neg (a : V3) : V3 := ⟨-a.z, -a.y, -a.x⟩

def vmin (a b : V3) : V3 := ⟨min a.z b.z, min a.y b.y, min a.x b.x⟩

def vmax (a b : V3) : V3 := ⟨max a.z b.z, max a.y b.y, max a.x b.x⟩

/-- Componentwise `a ≤ b`. -/
def allLE (a b : V3) : Prop := a.z ≤ b.z ∧ a.y ≤ b.y ∧ a.x ≤ b.x

/-- Componentwise `a < b`. -/
def allLT (a b : V3) : Prop := a.z < b.z ∧ a.y < b.y ∧ a.x < b.x

instance (a b : V3) : Decidable (allLE a b) := by unfold allLE; infer_instance

instance (a b : V3) : Decidable (allLT a b) := by unfold allLT; infer_instance

/-- The zero vector. -/
def zero : V3 := ⟨0, 0, 0⟩

/-- `a` is zero on every component (numpy `not arr.any()`). -/
def isZero (a : V3) : Prop := a = zero

instance (a : V3) : Decidable (isZero a) := by unfold isZero; infer_instance

end V3

/-- A half-open axis-aligned integer box `[lo, hi)` in global coordinates. -/
structure Box3 where
  lo : V3
  hi : V3
  deriving DecidableEq, Repr

namespace Box3

/-- Shift a box by an offset (numpy `box + delta`). -/
def shift (b : Box3) (d : V3) : Box3 := ⟨b.lo.add d, b.hi.add d⟩

/-- Shift a box by the negation of an offset (numpy `box - delta`). -/
def unshift (b : Box3) (d : V3) : Box3 := ⟨b.lo.sub d, b.hi.sub d⟩

/-- Modelled from the spec (§4.1, `neuclease.util.box_intersection`):
componentwise max of lower corners / min of upper corners; a non-positive
shape component denotes an empty intersection. -/
def inter (a b : Box3) : Box3 := ⟨V3.vmax a.lo b.lo, V3.vmin a.hi b.hi⟩

/-- The box has positive shape on every axis. -/
def nonEmpty (b : Box3) : Prop := V3.allLT b.lo b.hi

instance (b : Box3) : Decidable (nonEmpty b) := by unfold nonEmpty; infer_instance

/-- Point membership in a half-open box. -/
def memB (p : V3) (b : Box3) : Prop := V3.allLE b.lo p ∧ V3.allLT p b.hi

instance (p : V3) (b : Box3) : Decidable (memB p b) := by unfold memB; infer_instance

/-- `a ⊆ b` as boxes. -/
def subset (a b : Box3) : Prop := V3.allLE b.lo a.lo ∧ V3.allLE a.hi b.hi

instance (a b : Box3) : Decidable (subset a b) := by unfold subset; infer_instance

end Box3

/-- A voxel buffer in local coordinates (origin `0`), as a total function.
This mirrors a numpy array whose shape is left implicit. -/
def Vol3 (α : Type) : Type := V3 → α

/-- Modelled from the spec (§4.1, `neuclease.util.extract_subvol`):
`vol[box_to_slicing(*box)]` — the subarray of `vol` at `box` (given in
`vol`-local coordinates), re-indexed to origin 0. -/
def extractSubvol {α : Type} (vol : Vol3 α) (box : Box3) : Vol3 α :=
  fun p => vol (p.add box.lo)

/-- Modelled from the spec (§4.1, `neuclease.util.overwrite_subvol`):
writes `src` into `vol` at `box` (given in `vol`-local coordinates). -/
def overwriteSubvol {α : Type} (vol : Vol3 α) (box : Box3) (src : Vol3 α) : Vol3 α :=
  fun p => if Box3.memB p box then src (p.sub box.lo) else vol p

/-- The all-zeros buffer (`np.zeros`). -/
def zerosVol {α : Type} [Zero α] : Vol3 α := fun _ => 0

/-- Modelled from the spec (§3, `neuclease.util.Grid`): block shape,
offset, and optional halo. -/
structure Grid3 where
  blockShape : V3
  offset : V3
  halo : V3
  deriving DecidableEq, Repr

/-- A brick as used by the geometry-level operations of `brick.py`:
a logical box, a physical box, a voxel buffer (in physical-box-local
coordinates), and the `_destroyed` flag.  Compression is transparent at
this level (the codec round-trips losslessly, spec §4.3); the full
lifecycle state machine is modelled separately by `PyBrick` below. -/
structure BrickL (α : Type) where
  logical : Box3
  physical : Box3
  vol : Vol3 α
  destroyed : Bool

/-- `Brick.destroy` (brick.py line 162): releases the buffer and marks the
brick destroyed.  The buffer function itself is retained in the model; the
`destroyed` flag governs every subsequent access. -/
def BrickL.destroy {α : Type} (b : BrickL α) : BrickL α :=
  { b with destroyed := true }

/-! ## Grid cell enumeration (spec §4.2) -/

/-- The list of integers `a, a+1, …, b` (empty when `b < a`). -/
def intRange (a b : ℤ) : List ℤ :=
  (List.range (b + 1 - a).toNat).map (fun n => a + (n : ℤ))

/-- Modelled from the spec (§4.2, `neuclease.util.boxes_from_grid`):
the boxes of every grid cell whose (halo-expanded, when `includeHalos`)
box intersects the bounding box `B`, in lexicographic (z, y, x) order.
Each yielded box is the cell expanded by `±halo` when `includeHalos`. -/
def cellsOver (B : Box3) (G : Grid3) (includeHalos : Bool) : List Box3 :=
  let h : V3 := if includeHalos then G.halo else V3.zero
  let kmin : V3 := ⟨(B.lo.z - G.offset.z - h.z) / G.blockShape.z,
                    (B.lo.y - G.offset.y - h.y) / G.blockShape.y,
                    (B.lo.x - G.offset.x - h.x) / G.blockShape.x⟩
  let kmax : V3 := ⟨(B.hi.z - G.offset.z + h.z - 1) / G.blockShape.z,
                    (B.hi.y - G.offset.y + h.y - 1) / G.blockShape.y,
                    (B.hi.x - G.offset.x + h.x - 1) / G.blockShape.x⟩
  (intRange kmin.z kmax.z).flatMap (fun kz =>
    (intRange kmin.y kmax.y).flatMap (fun ky =>
      (intRange kmin.x kmax.x).map (fun kx =>
        Box3.mk
          ⟨G.offset.z + kz * G.blockShape.z - h.z,
           G.offset.y + ky * G.blockShape.y - h.y,
           G.offset.x + kx * G.blockShape.x - h.x⟩
          ⟨G.offset.z + (kz + 1) * G.blockShape.z + h.z,
           G.offset.y + (ky + 1) * G.blockShape.y + h.y,
           G.offset.x + (kx + 1) * G.blockShape.x + h.x⟩)))

/-! ## `pad_brick_data_from_volume_source` (brick.py lines 287–374) -/

/-- The aligned test of brick.py line 329:
`(offset_physical_box % block_shape == 0).all()`. -/
def offsetPhysAligned (G : Grid3) (b : BrickL α) : Prop :=
  let q := b.physical.unshift G.offset
  q.lo.z % G.blockShape.z = 0 ∧ q.lo.y % G.blockShape.y = 0 ∧ q.lo.x % G.blockShape.x = 0 ∧
  q.hi.z % G.blockShape.z = 0 ∧ q.hi.y % G.blockShape.y = 0 ∧ q.hi.x % G.blockShape.x = 0

instance (G : Grid3) (b : BrickL α) : Decidable (offsetPhysAligned G b) := by
  unfold offsetPhysAligned; infer_instance

/-- The logical-box alignment assertion of brick.py line 323:
`((brick.logical_box - padding_grid.offset) % block_shape == 0).all()`. -/
def logicalAligned (G : Grid3) (b : BrickL α) : Prop :=
  let q := b.logical.unshift G.offset
  q.lo.z % G.blockShape.z = 0 ∧ q.lo.y % G.blockShape.y = 0 ∧ q.lo.x % G.blockShape.x = 0 ∧
  q.hi.z % G.blockShape.z = 0 ∧ q.hi.y % G.blockShape.y = 0 ∧ q.hi.x % G.blockShape.x = 0

instance (G : Grid3) (b : BrickL α) : Decidable (logicalAligned G b) := by
  unfold logicalAligned; infer_instance

/-- brick.py lines 333–337: snap the offset physical box outward to block
multiples (floor for lo, `(hi + bs - 1) // bs` for hi) and re-add the offset. -/
def paddedBoxOf (G : Grid3) (b : BrickL α) : Box3 :=
  let q := b.physical.unshift G.offset
  let lo : V3 := ⟨q.lo.z / G.blockShape.z * G.blockShape.z,
                  q.lo.y / G.blockShape.y * G.blockShape.y,
                  q.lo.x / G.blockShape.x * G.blockShape.x⟩
  let hi : V3 := ⟨(q.hi.z + G.blockShape.z - 1) / G.blockShape.z * G.blockShape.z,
                  (q.hi.y + G.blockShape.y - 1) / G.blockShape.y * G.blockShape.y,
                  (q.hi.x + G.blockShape.x - 1) / G.blockShape.x * G.blockShape.x⟩
  (Box3.mk lo hi).shift G.offset

/-- `if cond then [b] else []` — one optionally-present halo slab. -/
def optBox (cond : Prop) [Decidable cond] (b : Box3) : List Box3 :=
  if cond then [b] else []

/-- brick.py lines 350–361: the up-to-six halo slabs between the original
physical box and the padded box, in the loop's order (per axis: leading
then trailing).  Each slab spans the full padded box on the other axes. -/
def haloBoxes (orig padded : Box3) : List Box3 :=
  optBox (orig.lo.z ≠ padded.lo.z) ⟨padded.lo, ⟨orig.lo.z, padded.hi.y, padded.hi.x⟩⟩ ++
  optBox (orig.hi.z ≠ padded.hi.z) ⟨⟨orig.hi.z, padded.lo.y, padded.lo.x⟩, padded.hi⟩ ++
  optBox (orig.lo.y ≠ padded.lo.y) ⟨padded.lo, ⟨padded.hi.z, orig.lo.y, padded.hi.x⟩⟩ ++
  optBox (orig.hi.y ≠ padded.hi.y) ⟨⟨padded.lo.z, orig.hi.y, padded.lo.x⟩, padded.hi⟩ ++
  optBox (orig.lo.x ≠ padded.lo.x) ⟨padded.lo, ⟨padded.hi.z, padded.hi.y, orig.lo.x⟩⟩ ++
  optBox (orig.hi.x ≠ padded.hi.x) ⟨⟨padded.lo.z, padded.lo.y, orig.hi.x⟩, padded.hi⟩

/-- A volume accessor (spec §6): fetches the voxels of a global box,
returned as a box-local buffer. -/
def Accessor (α : Type) : Type := Box3 → Vol3 α

/-- `pad_brick_data_from_volume_source` (brick.py lines 287–374), also
returning the list of boxes passed to the accessor (one call per element).
Asserts are modelled as `Except.error`; the early-return of line 331
returns the input brick unchanged with no accessor calls. -/
def padBrickE {α : Type} [Zero α] (G : Grid3) (acc : Accessor α) (brick : BrickL α) :
    Except String (BrickL α × List Box3) :=
  if V3.isZero G.halo then
    if logicalAligned G brick then
      if offsetPhysAligned G brick then
        .ok (brick, [])
      else
        let padded := paddedBoxOf G brick
        if V3.allLE brick.logical.lo padded.lo ∧ V3.allLE padded.hi brick.logical.hi then
          if brick.destroyed then .error "brick already destroyed"
          else
            let origWithinPadded : Box3 := brick.physical.unshift padded.lo
            let base : Vol3 α := overwriteSubvol zerosVol origWithinPadded brick.vol
            let slabs := haloBoxes brick.physical padded
            if slabs = [] then .error "halo_boxes cannot be empty if padding was needed"
            else
              let filled : Vol3 α := slabs.foldl
                (fun vol hb => overwriteSubvol vol (hb.unshift padded.lo) (acc hb)) base
              .ok (⟨brick.logical, padded, filled, false⟩, slabs)
        else .error "padded_box must lie within logical_box"
    else .error "Padding grid must be aligned with brick logical_box"
  else .error "padding_grid must not have a halo"

/-! ## CPython numeric and tuple hashing

`split_brick` keys fragments with `hash(tuple(new_logical_box[0] /
new_grid.block_shape))` (brick.py line 522) — note the *true* division.
We model CPython's numeric hash (modulus `2^61 - 1`, consistent across
`int`/`float`/`Fraction`) and CPython ≥ 3.8's xxHash-style tuple hash.
Hash values are represented by their unsigned 64-bit reinterpretation,
which preserves equality and inequality.  The float division of the
source is modelled by exact rational division (exact for the magnitudes
involved in all statements below). -/

/-- The CPython numeric-hash modulus `2^61 - 1`. -/
def pyM : ℕ := 2 ^ 61 - 1

/-- Modular exponentiation, `b ^ e % m`, by binary fuel recursion;
the result is always reduced mod `m`. -/
def powModGo (m : ℕ) : ℕ → ℕ → ℕ → ℕ → ℕ
  | 0, _, _, acc => acc % m
  | fuel + 1, b, e, acc =>
    if e = 0 then acc % m
    else powModGo m fuel (b * b % m) (e / 2) (if e % 2 = 1 then acc * b % m else acc)

/-- `b ^ e % m` (64 bits of fuel suffice for every exponent used here). -/
def powMod (b e m : ℕ) : ℕ := powModGo m 64 (b % m) e 1

/-- CPython `hash` of an `int`: reduce mod `2^61 - 1`, preserve sign,
map the reserved value `-1` to `-2`. -/
def pyHashInt (n : ℤ) : ℤ :=
  let h : ℤ := (n.natAbs % pyM : ℕ)
  let s : ℤ := if n < 0 then -h else h
  if s = -1 then -2 else s

/-- CPython `hash` of a rational number (`float`/`Fraction` agree on it):
`|num| * den⁻¹ mod (2^61 - 1)` with the sign of the number, `-1 ↦ -2`.
The inverse is `den^(M-2) mod M` (M prime). -/
def pyHashRat (q : ℚ) : ℤ :=
  let h : ℤ := ((q.num.natAbs % pyM) * powMod q.den (pyM - 2) pyM % pyM : ℕ)
  let s : ℤ := if q.num < 0 then -h else h
  if s = -1 then -2 else s

/-- Interpret a CPython hash value as its unsigned 64-bit pattern. -/
def pyUnsigned (h : ℤ) : ℕ := (h % (2 ^ 64 : ℤ)).toNat

/-- Rotate a 64-bit value left by 31. -/
def rotl31 (a : ℕ) : ℕ := a % 2 ^ 64 * 2 ^ 31 % 2 ^ 64 + a % 2 ^ 64 / 2 ^ 33

/-- One lane of CPython ≥ 3.8's tuple hash. -/
def pyTupleLane (acc lane : ℕ) : ℕ :=
  rotl31 ((acc + lane * 14029467366897019727) % 2 ^ 64) * 11400714785074694791 % 2 ^ 64

/-- CPython ≥ 3.8 `hash` of a tuple, from the item hashes, as the unsigned
64-bit pattern of the result. -/
def pyTupleHash (lanes : List ℤ) : ℕ :=
  let acc := lanes.foldl (fun acc h => pyTupleLane acc (pyUnsigned h)) 2870177450012600261
  let acc := (acc + Nat.xor lanes.length (Nat.xor 2870177450012600261 3527539)) % 2 ^ 64
  if acc = 2 ^ 64 - 1 then 1546275796 else acc

/-! ## `split_brick` (brick.py lines 475–525) -/

/-- The key attached to each fragment: `rt.tuple_with_hash(box_as_tuple(
new_logical_box))` with `set_hash(hash(tuple(new_logical_box[0] /
new_grid.block_shape)))`.  `DVIDSparkServices.util.box_as_tuple` and
`rddtools.tuple_with_hash` are modelled from the spec (§4.5): the key
*value* is the destination logical box (grouping compares keys by value),
and `khash` is its custom partitioning hash. -/
structure KeyH where
  box : Box3
  khash : ℕ
  deriving DecidableEq, Repr

/-- The custom hash of brick.py line 522:
`hash(tuple(new_logical_box[0] / new_grid.block_shape))`, true division
(the exact rational value, written `Rat.divInt` so it evaluates). -/
def splitKeyHash (newLogical : Box3) (bs : V3) : ℕ :=
  pyTupleHash [pyHashRat (Rat.divInt newLogical.lo.z bs.z),
               pyHashRat (Rat.divInt newLogical.lo.y bs.y),
               pyHashRat (Rat.divInt newLogical.lo.x bs.x)]

/-- The hash the spec claims for the key:
`H(⌊d_logical.lo / G₁.block_shape⌋)` — the tuple hash of the
floor-divided lower corner. -/
def splitKeyHashFloor (newLogical : Box3) (bs : V3) : ℕ :=
  pyTupleHash [pyHashInt (newLogical.lo.z / bs.z),
               pyHashInt (newLogical.lo.y / bs.y),
               pyHashInt (newLogical.lo.x / bs.x)]

/-- `split_brick(new_grid, original_brick)` (brick.py lines 475–525).
The leading assert forbids a physical box outside the logical box; each
destination cell yields one `(key, fragment)` pair.  Fragment compression
(line 516) is transparent in this model. -/
def splitBrickE {α : Type} (newGrid : Grid3) (brick : BrickL α) :
    Except String (List (KeyH × BrickL α)) :=
  if Box3.subset brick.physical brick.logical then
    if brick.destroyed then .error "brick already destroyed"
    else .ok ((cellsOver brick.physical newGrid true).map (fun destinationBox =>
    let splitBox := Box3.inter destinationBox brick.physical
    let splitBoxInternal := splitBox.unshift brick.physical.lo
    let fragmentVol := extractSubvol brick.vol splitBoxInternal
    let newLogicalBox : Box3 := ⟨destinationBox.lo.add newGrid.halo,
                                 destinationBox.hi.sub newGrid.halo⟩
    let fragmentBrick : BrickL α := ⟨newLogicalBox, splitBox, fragmentVol, false⟩
    (⟨newLogicalBox, splitKeyHash newLogicalBox newGrid.blockShape⟩, fragmentBrick)))
  else .error "physical_box must not extend outside logical_box"

/-- Only the keys emitted by `split_brick` (the fragments dropped), for
statements that must be decidable on concrete inputs. -/
def splitKeysE {α : Type} (newGrid : Grid3) (brick : BrickL α) :
    Except String (List KeyH) :=
  match splitBrickE newGrid brick with
  | .error e => .error e
  | .ok l => .ok (l.map Prod.fst)

/-! ## `assemble_brick_fragments` (brick.py lines 528–584) -/

/-- The min/max union of the fragments' physical boxes (brick.py lines
562–563): componentwise min of lower corners, max of upper corners. -/
def unionPhysicalBox {α : Type} (f0 : BrickL α) (rest : List (BrickL α)) : Box3 :=
  ⟨rest.foldl (fun acc f => V3.vmin acc f.physical.lo) f0.physical.lo,
   rest.foldl (fun acc f => V3.vmax acc f.physical.hi) f0.physical.hi⟩

/-- The drop test of brick.py line 566:
`(interior_box[1] - interior_box[0] < 1).any()`. -/
def interiorEmpty (interior : Box3) : Prop :=
  interior.hi.z - interior.lo.z < 1 ∨ interior.hi.y - interior.lo.y < 1 ∨
  interior.hi.x - interior.lo.x < 1

instance (interior : Box3) : Decidable (interiorEmpty interior) := by
  unfold interiorEmpty; infer_instance

/-- The copy loop of brick.py lines 575–580: overwrite each fragment's
voxels at `frag.physical_box - final_physical_box[0]`, destroying each
fragment immediately after it is copied.  Reading a destroyed fragment's
volume raises. -/
def assembleLoop {α : Type} (finalLo : V3) :
    Vol3 α → List (BrickL α) → Except String (Vol3 α × List (BrickL α))
  | vol, [] => .ok (vol, [])
  | vol, f :: rest =>
    if f.destroyed then .error "fragment already destroyed"
    else
      match assembleLoop finalLo (overwriteSubvol vol (f.physical.unshift finalLo) f.vol) rest with
      | .error e => .error e
      | .ok (vol, rest) => .ok (vol, f.destroy :: rest)

/-- `assemble_brick_fragments(fragments)` (brick.py lines 528–584).
Returns the assembled brick (`none` when every fragment lies in the halo)
together with the post-loop fragment states.  The empty input and
mismatched logical boxes raise, as in the source; compression of the
result (line 583) is transparent in this model. -/
def assembleE {α : Type} [Zero α] (fragments : List (BrickL α)) :
    Except String (Option (BrickL α) × List (BrickL α)) :=
  match fragments with
  | [] => .error "no fragments"
  | f0 :: rest =>
    if rest.all (fun f => f.logical = f0.logical) then
      let finalLogicalBox := f0.logical
      let finalPhysicalBox := unionPhysicalBox f0 rest
      let interiorBox := Box3.inter finalPhysicalBox finalLogicalBox
      if interiorEmpty interiorBox then
        .ok (none, f0 :: rest)
      else
        match assembleLoop finalPhysicalBox.lo zerosVol (f0 :: rest) with
        | .error e => .error e
        | .ok (finalVolume, outFrags) =>
          .ok (some ⟨finalLogicalBox, finalPhysicalBox, finalVolume, false⟩, outFrags)
    else .error "Cannot assemble brick fragments from different logical boxes"

/-! ## `realign_bricks_to_new_grid` (brick.py lines 450–472) -/

/-- `mapM` over `Except`, by plain structural recursion (used instead of
`List.mapM` so proofs can unfold it directly). -/
def mapME {β γ : Type} (f : β → Except String γ) : List β → Except String (List γ)
  | [] => .ok []
  | b :: rest =>
    match f b with
    | .error e => .error e
    | .ok c =>
      match mapME f rest with
      | .error e => .error e
      | .ok cs => .ok (c :: cs)

/-- The split phase of `realign_bricks_to_new_grid`:
`rt.flat_map(partial(split_brick, new_grid), original_bricks)`. -/
def splitPairsE {α : Type} (newGrid : Grid3) (bricks : List (BrickL α)) :
    Except String (List (KeyH × BrickL α)) :=
  match mapME (splitBrickE newGrid) bricks with
  | .error e => .error e
  | .ok ls => .ok (ls.foldr (· ++ ·) [])

/-- The fragments grouped under key `k` (compared by key value, as Spark's
`groupByKey` groups equal keys). -/
def lookupGroup {α : Type} (k : Box3) (pairs : List (KeyH × BrickL α)) : List (BrickL α) :=
  (pairs.filter (fun p => p.1.box = k)).map Prod.snd

/-- First-occurrence deduplication of a key list. -/
def dedupKeys (seen : List Box3) : List Box3 → List Box3
  | [] => []
  | k :: rest =>
    if k ∈ seen then dedupKeys seen rest else k :: dedupKeys (k :: seen) rest

/-- `rt.group_by_key`: one group per distinct key value, in first-seen
order, each group holding every fragment that carried that key. -/
def groupByKey {α : Type} (pairs : List (KeyH × BrickL α)) :
    List (Box3 × List (BrickL α)) :=
  (dedupKeys [] (pairs.map (fun p => p.1.box))).map (fun k => (k, lookupGroup k pairs))

/-- `realign_bricks_to_new_grid(new_grid, original_bricks)` (brick.py
lines 450–472): split, group by key, assemble each group, and filter out
the `None` results. -/
def realignE {α : Type} [Zero α] (newGrid : Grid3) (bricks : List (BrickL α)) :
    Except String (List (Box3 × BrickL α)) :=
  match splitPairsE newGrid bricks with
  | .error e => .error e
  | .ok pairs =>
    match mapME (fun kg =>
        match assembleE kg.2 with
        | .error e => .error e
        | .ok r => .ok (kg.1, r.1)) (groupByKey pairs) with
    | .error e => .error e
    | .ok assembled => .ok (assembled.filterMap (fun kb => kb.2.map (fun b => (kb.1, b))))

/-- Just the destination keys present in the realigned output. -/
def realignKeysE {α : Type} [Zero α] (newGrid : Grid3) (bricks : List (BrickL α)) :
    Except String (List Box3) :=
  match realignE newGrid bricks with
  | .error e => .error e
  | .ok out => .ok (out.map Prod.fst)

/-- The assembly outcome for the group of destination `k` (the value
`assemble_brick_fragments` returns for that key, `none` when dropped). -/
def assembleOfKeyE {α : Type} [Zero α] (newGrid : Grid3) (bricks : List (BrickL α))
    (k : Box3) : Except String (Option (BrickL α)) :=
  match splitPairsE newGrid bricks with
  | .error e => .error e
  | .ok pairs =>
    match assembleE (lookupGroup k pairs) with
    | .error e => .error e
    | .ok r => .ok r.1

/-! ## `BrickWall.translate` (brickwall.py lines 234–250) -/

/-- A BrickWall: bounding box, grid, and its bricks (brickwall.py line 21).
The parallel collection is modelled as a list. -/
structure BrickWallL (α : Type) where
  boundingBox : Box3
  grid : Grid3
  bricks : List (BrickL α)

/-- The per-brick translation of brickwall.py lines 241–244:
`Brick(logical_box + Δ, physical_box + Δ, brick.volume)` — a fresh,
non-destroyed brick carrying the identical voxel buffer. -/
def translateBrick {α : Type} (d : V3) (b : BrickL α) : BrickL α :=
  ⟨b.logical.shift d, b.physical.shift d, b.vol, false⟩

/-- `BrickWall.translate(offset_zyx)` (brickwall.py lines 234–250):
translate every brick, the bounding box, and the grid offset.  The new
grid is `Grid(block_shape, offset + Δ)`, whose halo defaults to zero. -/
def BrickWallL.translate {α : Type} (w : BrickWallL α) (d : V3) : BrickWallL α :=
  { boundingBox := w.boundingBox.shift d
    grid := ⟨w.grid.blockShape, w.grid.offset.add d, V3.zero⟩
    bricks := w.bricks.map (translateBrick d) }

/-! ## The `Brick` lifecycle state machine (brick.py lines 44–164)

`PyBrick` carries the exact instance fields of the Python class:
`_volume`, `_compressed_volume`, `_create_volume_fn`, `_destroyed` and
`_hash`.  The compressed blob is modelled by the buffer it decompresses
to (the codec round-trips losslessly, spec §4.3). -/

structure PyBrick (α : Type) where
  logicalBox : Box3
  physicalBox : Box3
  vol : Option (Vol3 α)
  compressedVol : Option (Vol3 α)
  createFn : Option (Box3 → Vol3 α)
  destroyed : Bool
  customHash : Option ℤ

/-- Modelled from the spec (§4.3 Hashing): `rddtools.better_hash` — not
under `src/` — is a deterministic function of the tuple
`logical_box[0]`; we model it as CPython's hash of that 3-tuple. -/
def betterHash (lo : V3) : ℕ :=
  pyTupleHash [pyHashInt lo.z, pyHashInt lo.y, pyHashInt lo.x]

/-- `Brick.__hash__` (brick.py lines 81–85): the custom hash when set,
else `better_hash(tuple(logical_box[0]))`. -/
def pyHashBrick {α : Type} (b : PyBrick α) : ℤ :=
  match b.customHash with
  | some h => h
  | none => (betterHash b.logicalBox.lo : ℤ)

/-- `Brick.set_hash` (brick.py lines 92–98). -/
def PyBrick.setHash {α : Type} (b : PyBrick α) (h : ℤ) : PyBrick α :=
  { b with customHash := some h }

/-- The `Brick.volume` property (brick.py lines 100–124): materialise the
buffer (decompressing or invoking the lazy creation function on first
access) and return it with the updated brick state. -/
def PyBrick.volumeAccess {α : Type} (b : PyBrick α) :
    Except String (Vol3 α × PyBrick α) :=
  if b.destroyed then
    .error "Attempting to access data for a brick that has already been explicitly destroyed"
  else
    match b.vol with
    | some v => .ok (v, b)
    | none =>
      match b.compressedVol with
      | some c => .ok (c, { b with vol := some c })
      | none =>
        match b.createFn with
        | some f => .ok (f b.physicalBox, { b with vol := some (f b.physicalBox), createFn := none })
        | none => .error "This brick has no data, and no way to create it."

/-- `Brick.compress` (brick.py lines 126–136): only a materialised buffer
is compressed; otherwise the brick is left untouched. -/
def PyBrick.compress {α : Type} (b : PyBrick α) : Except String (PyBrick α) :=
  if b.destroyed then
    .error "Attempting to compress data for a brick that has already been explicitly destroyed"
  else
    match b.vol with
    | some v => .ok { b with compressedVol := some v, vol := none }
    | none => .ok b

/-- `Brick.__getstate__` (brick.py lines 138–160): the pickled state has
the buffer compressed and `_volume` cleared; every other field (including
`_hash` and `_create_volume_fn`) is copied unchanged. -/
def PyBrick.getstate {α : Type} (b : PyBrick α) : Except String (PyBrick α) :=
  if b.destroyed then
    .error "Attempting to pickle a brick that has already been explicitly destroyed"
  else
    match b.vol with
    | some v => .ok { b with compressedVol := some v, vol := none }
    | none => .ok { b with vol := none }

/-- `Brick.destroy` (brick.py lines 162–164). -/
def PyBrick.destroyB {α : Type} (b : PyBrick α) : PyBrick α :=
  { b with vol := none, destroyed := true }

/-! ## The accessor retry policy (dvid_volume_service.py lines 147–161)

Modelled from the spec (§5 Cancellation & timeouts):
`DVIDSparkServices.auto_retry.auto_retry` is not under `src/`; per the
spec it retries the wrapped call up to `n` times, pausing between tries,
and when a `predicate` is given an exception failing it is re-raised
immediately.  `get_subvolume`/`write_subvolume` wrap an inner
`auto_retry(3)` with an outer `auto_retry(2, predicate = '503' or '504'
in the message)`.  A call's outcomes are modelled by an oracle giving
each attempt's failure message (`none` = success); pauses are not
modelled. -/

/-- `needle` occurs as a contiguous substring of `hay`. -/
def hasInfix (needle : List Char) : List Char → Bool
  | [] => needle.isEmpty
  | c :: rest => needle.isPrefixOf (c :: rest) || hasInfix needle rest

/-- The transient-failure predicate of dvid_volume_service.py line 151:
`'503' in ex.args[0] or '504' in ex.args[0]`. -/
def transientErr (e : String) : Bool :=
  hasInfix "503".toList e.toList || hasInfix "504".toList e.toList

/-- One inner `auto_retry(3)` round: up to `fuel` attempts starting at
attempt index `start`; returns the next attempt index and the last
failure, if every attempt failed. -/
def innerRun (att : ℕ → Option String) : ℕ → ℕ → ℕ × Option String
  | start, 0 => (start, some "no attempts allowed")
  | start, fuel + 1 =>
    match att start with
    | none => (start + 1, none)
    | some e => if fuel = 0 then (start + 1, some e) else innerRun att (start + 1) fuel

/-- The composite retry of `get_subvolume`/`write_subvolume`: an inner
round of 3 attempts; on failure, one further inner round of 3 attempts,
but only when the failure is transient (503/504); any other failure, and
the second round's outcome, propagate to the caller. -/
def retryComposite (att : ℕ → Option String) : ℕ × Option String :=
  match innerRun att 0 3 with
  | (k, none) => (k, none)
  | (k, some e) => if transientErr e then innerRun att k 3 else (k, some e)

/-! ## Basic lemmas -/

lemma V3.add_neg_cancel (a d : V3) : (a.add d).add d.neg = a := by
  cases a; cases d; simp [V3.add, V3.neg]

lemma Box3.shift_shift_neg (b : Box3) (d : V3) : (b.shift d).shift d.neg = b := by
  cases b; simp [Box3.shift, V3.add_neg_cancel]

/-- C7 — `translate(Δ) ∘ translate(−Δ)` restores the bounding box, the
grid's block shape and offset, and every brick's logical and physical
boxes; `translate` passes each brick's voxel buffer through untouched. -/
theorem translate_translate_neg {α : Type} (w : BrickWallL α) (d : V3)
    (hnd : ∀ b ∈ w.bricks, b.destroyed = false) :
    ((w.translate d).translate d.neg).boundingBox = w.boundingBox ∧
    ((w.translate d).translate d.neg).grid.blockShape = w.grid.blockShape ∧
    ((w.translate d).translate d.neg).grid.offset = w.grid.offset ∧
    ((w.translate d).translate d.neg).bricks = w.bricks ∧
    ∀ (b : BrickL α), (translateBrick d b).vol = b.vol := by
  refine ⟨Box3.shift_shift_neg _ _, rfl, ?_, ?_, fun b => rfl⟩
  · show (w.grid.offset.add d).add d.neg = w.grid.offset
    exact V3.add_neg_cancel _ _
  · show (w.bricks.map (translateBrick d)).map (translateBrick d.neg) = w.bricks
    rw [List.map_map]
    conv_rhs => rw [← List.map_id w.bricks]
    refine List.map_congr_left (fun b hb => ?_)
    cases b with
    | mk lb pb v dd =>
      have : dd = false := hnd _ hb
      subst this
      simp [translateBrick, Function.comp, Box3.shift_shift_neg]

/-- Witness for C7 at a concrete one-brick wall. -/
def c7wall : BrickWallL ℤ :=
  ⟨⟨⟨0, 0, 0⟩, ⟨4, 4, 4⟩⟩, ⟨⟨2, 2, 2⟩, ⟨0, 0, 0⟩, ⟨0, 0, 0⟩⟩,
   [⟨⟨⟨0, 0, 0⟩, ⟨2, 2, 2⟩⟩, ⟨⟨0, 0, 0⟩, ⟨2, 2, 2⟩⟩, fun p => p.z, false⟩]⟩

theorem translate_translate_neg_witness :
    (∀ b ∈ c7wall.bricks, b.destroyed = false) ∧
    ((c7wall.translate ⟨1, 2, 3⟩).translate (V3.neg ⟨1, 2, 3⟩)).boundingBox =
      c7wall.boundingBox ∧
    ((c7wall.translate ⟨1, 2, 3⟩).translate (V3.neg ⟨1, 2, 3⟩)).bricks = c7wall.bricks :=
  ⟨by decide,
   (translate_translate_neg c7wall ⟨1, 2, 3⟩ (by decide)).1,
   (translate_translate_neg c7wall ⟨1, 2, 3⟩ (by decide)).2.2.2.1⟩

/-- C8 — `hash(brick)` is stable across the brick's life: materialising
the volume, `compress()`, pickling and `destroy()` all preserve it; it
equals the deterministic `better_hash` of `logical_box[0]` unless
`set_hash` was called, after which it equals the user-set value. -/
theorem brick_hash_stable {α : Type} (b : PyBrick α) :
    (b.customHash = none → pyHashBrick b = (betterHash b.logicalBox.lo : ℤ)) ∧
    (∀ h : ℤ, pyHashBrick (b.setHash h) = h) ∧
    (∀ (v : Vol3 α) (b' : PyBrick α), b.volumeAccess = .ok (v, b') →
      pyHashBrick b' = pyHashBrick b) ∧
    (∀ b' : PyBrick α, b.compress = .ok b' → pyHashBrick b' = pyHashBrick b) ∧
    (∀ b' : PyBrick α, b.getstate = .ok b' → pyHashBrick b' = pyHashBrick b) ∧
    pyHashBrick b.destroyB = pyHashBrick b := by
  obtain ⟨lb, pb, v, c, f, dd, ch⟩ := b
  refine ⟨?_, fun h => rfl, ?_, ?_, ?_, rfl⟩
  · intro h
    simp only [PyBrick.customHash] at h
    subst h
    rfl
  · intro vv b' hacc
    simp only [PyBrick.volumeAccess] at hacc
    split at hacc
    · cases hacc
    · cases v with
      | some v0 => cases hacc; rfl
      | none =>
        cases c with
        | some c0 => cases hacc; rfl
        | none =>
          cases f with
          | some f0 => cases hacc; rfl
          | none => cases hacc
  · intro b' hc
    simp only [PyBrick.compress] at hc
    split at hc
    · cases hc
    · cases v with
      | some v0 => cases hc; rfl
      | none => cases hc; rfl
  · intro b' hg
    simp only [PyBrick.getstate] at hg
    split at hg
    · cases hg
    · cases v with
      | some v0 => cases hg; rfl
      | none => cases hg; rfl

/-- A concrete materialised brick for the lifecycle witnesses. -/
def c8vol : Vol3 ℤ := fun p => p.x

/-- A concrete materialised brick (volume present, no custom hash). -/
def c8brick : PyBrick ℤ :=
  ⟨⟨⟨0, 0, 0⟩, ⟨2, 2, 2⟩⟩, ⟨⟨0, 0, 0⟩, ⟨2, 2, 2⟩⟩, some c8vol, none, none, false, none⟩

/-- `c8brick` after `compress()`. -/
def c8brickC : PyBrick ℤ :=
  ⟨⟨⟨0, 0, 0⟩, ⟨2, 2, 2⟩⟩, ⟨⟨0, 0, 0⟩, ⟨2, 2, 2⟩⟩, none, some c8vol, none, false, none⟩

theorem brick_hash_stable_witness :
    c8brick.compress = .ok c8brickC ∧
    pyHashBrick c8brickC = pyHashBrick c8brick ∧
    pyHashBrick (c8brick.setHash 77) = 77 ∧
    pyHashBrick c8brick.destroyB = pyHashBrick c8brick :=
  ⟨rfl, (brick_hash_stable c8brick).2.2.2.1 c8brickC rfl,
   (brick_hash_stable c8brick).2.1 77, (brick_hash_stable c8brick).2.2.2.2.2⟩

/-- C10 — `compress()` on a non-destroyed brick whose buffer is not
materialised returns the brick unchanged (no lazy creation, no
re-compression, a Lazy brick stays Lazy), and `compress()` is idempotent:
re-compressing any compression result changes nothing. -/
theorem compress_nonmaterialised_identity {α : Type} (b : PyBrick α) :
    (b.destroyed = false → b.vol = none → b.compress = .ok b) ∧
    (∀ b' : PyBrick α, b.compress = .ok b' → b'.compress = .ok b') := by
  constructor
  · intro hd hv
    simp [PyBrick.compress, hd, hv]
  · intro b' hc
    simp only [PyBrick.compress] at hc
    split at hc
    · cases hc
    · rename_i hd
      have hd' : b.destroyed = false := by revert hd; cases b.destroyed <;> simp
      cases hv : b.vol with
      | some v0 =>
        rw [hv] at hc
        cases hc
        simp [PyBrick.compress, hd']
      | none =>
        rw [hv] at hc
        cases hc
        simp [PyBrick.compress, hd', hv]

/-- A concrete Lazy brick (creation function present, nothing else). -/
def c10brick : PyBrick ℤ :=
  ⟨⟨⟨0, 0, 0⟩, ⟨2, 2, 2⟩⟩, ⟨⟨0, 0, 0⟩, ⟨2, 2, 2⟩⟩, none, none,
   some (fun _ => c8vol), false, none⟩

theorem compress_nonmaterialised_identity_witness :
    c10brick.destroyed = false ∧ c10brick.vol = none ∧
    c10brick.compress = .ok c10brick :=
  ⟨rfl, rfl, (compress_nonmaterialised_identity c10brick).1 rfl rfl⟩

/-- An inner retry round consumes between 1 and `fuel` attempts. -/
lemma innerRun_le (att : ℕ → Option String) :
    ∀ (fuel start : ℕ),
      start ≤ (innerRun att start fuel).1 ∧ (innerRun att start fuel).1 ≤ start + fuel := by
  intro fuel
  induction fuel with
  | zero => intro start; simp [innerRun]
  | succ f ih =>
    intro start
    simp only [innerRun]
    cases att start with
    | none =>
      refine ⟨Nat.le_succ _, ?_⟩
      show start + 1 ≤ start + (f + 1)
      omega
    | some e =>
      by_cases hf : f = 0
      · subst hf
        refine ⟨Nat.le_succ _, ?_⟩
        show start + 1 ≤ start + (0 + 1)
        omega
      · simp only [if_neg hf]
        have := ih (start + 1)
        omega

/-- C9 — each accessor call makes at most 3 inner attempts; one further
round of at most 3 more attempts happens only when the first round's
failure is transient (its message contains 503 or 504); a non-transient
failure propagates immediately after the inner attempts, at most 6
attempts ever happen, and exhausting both rounds propagates the final
error. -/
theorem accessor_retry_policy (att : ℕ → Option String) :
    (innerRun att 0 3).1 ≤ 3 ∧
    (retryComposite att).1 ≤ 6 ∧
    (∀ e, (innerRun att 0 3).2 = some e → transientErr e = false →
      retryComposite att = ((innerRun att 0 3).1, some e)) ∧
    (∀ e, (innerRun att 0 3).2 = some e → transientErr e = true →
      retryComposite att = innerRun att (innerRun att 0 3).1 3) := by
  have h1 := innerRun_le att 3 0
  refine ⟨h1.2, ?_, ?_, ?_⟩
  · unfold retryComposite
    rcases hr : innerRun att 0 3 with ⟨k, oe⟩
    rw [hr] at h1
    simp only at h1
    cases oe with
    | none => show k ≤ 6; omega
    | some e =>
      by_cases ht : transientErr e = true
      · have h2 := innerRun_le att 3 k
        simp only [if_pos ht]
        omega
      · simp only [if_neg ht]
        show k ≤ 6
        omega
  · intro e he ht
    unfold retryComposite
    rcases hr : innerRun att 0 3 with ⟨k, oe⟩
    rw [hr] at he
    simp at he
    subst he
    simp [ht]
  · intro e he ht
    unfold retryComposite
    rcases hr : innerRun att 0 3 with ⟨k, oe⟩
    rw [hr] at he
    simp at he
    subst he
    simp [ht]

/-- An attempt oracle: the first four attempts fail with a 503 message,
later attempts succeed. -/
def c9att : ℕ → Option String := fun n =>
  if n < 4 then some "DVID error 503: Service Unavailable" else none

theorem accessor_retry_policy_witness :
    (innerRun c9att 0 3).2 = some "DVID error 503: Service Unavailable" ∧
    transientErr "DVID error 503: Service Unavailable" = true ∧
    retryComposite c9att = innerRun c9att (innerRun c9att 0 3).1 3 :=
  ⟨by decide, by decide,
   (accessor_retry_policy c9att).2.2.2 "DVID error 503: Service Unavailable"
     (by decide) (by decide)⟩

/-! ## Arithmetic of outward snapping -/

/-- Flooring to a block multiple stays at or above any block multiple below. -/
lemma floor_block_ge (L p bs : ℤ) (hbs : 0 < bs) (hL : L % bs = 0) (hLp : L ≤ p) :
    L ≤ p / bs * bs := by
  have hdvd : bs ∣ L := Int.dvd_of_emod_eq_zero hL
  have h1 : L / bs ≤ p / bs := Int.ediv_le_ediv hbs hLp
  have h2 : L / bs * bs = L := Int.ediv_mul_cancel hdvd
  calc L = L / bs * bs := h2.symm
    _ ≤ p / bs * bs := by
        exact mul_le_mul_of_nonneg_right h1 (le_of_lt hbs)

/-- Ceiling to a block multiple stays at or below any block multiple above. -/
lemma ceil_block_le (U q bs : ℤ) (hbs : 0 < bs) (hU : U % bs = 0) (hqU : q ≤ U) :
    (q + bs - 1) / bs * bs ≤ U := by
  have hdvd : bs ∣ U := Int.dvd_of_emod_eq_zero hU
  obtain ⟨m, rfl⟩ := hdvd
  have h1 : (q + bs - 1) / bs ≤ (bs * m + bs - 1) / bs := Int.ediv_le_ediv hbs (by omega)
  have h2 : (bs * m + bs - 1) / bs = m := by
    rw [show bs * m + bs - 1 = bs - 1 + m * bs by ring]
    rw [Int.add_mul_ediv_right _ _ (ne_of_gt hbs)]
    rw [Int.ediv_eq_zero_of_lt (by omega) (by omega)]
    omega
  calc (q + bs - 1) / bs * bs ≤ m * bs := by
        exact mul_le_mul_of_nonneg_right (h2 ▸ h1) (le_of_lt hbs)
    _ = bs * m := by ring

/-- Flooring moves a non-multiple strictly. -/
lemma floor_block_ne (p bs : ℤ) (hp : p % bs ≠ 0) : p / bs * bs ≠ p := by
  intro h
  apply hp
  have := Int.emod_emod_of_dvd p (dvd_refl bs)
  have hd : bs ∣ p := Dvd.intro _ (by linarith [h] : bs * (p / bs) = p)
  exact Int.emod_eq_zero_of_dvd hd

/-- The outward ceiling moves a non-multiple strictly. -/
lemma ceil_block_ne (q bs : ℤ) (hq : q % bs ≠ 0) : (q + bs - 1) / bs * bs ≠ q := by
  intro h
  apply hq
  exact Int.emod_eq_zero_of_dvd (Dvd.intro _ (by linarith [h] : bs * ((q + bs - 1) / bs) = q))

/-- `optBox` is empty exactly when its condition fails. -/
lemma optBox_eq_nil (c : Prop) [Decidable c] (b : Box3) : optBox c b = [] ↔ ¬c := by
  unfold optBox
  split <;> simp_all

/-- If the original and padded boxes differ anywhere, some halo slab exists. -/
lemma haloBoxes_ne_nil (orig padded : Box3)
    (h : orig.lo.z ≠ padded.lo.z ∨ orig.hi.z ≠ padded.hi.z ∨
         orig.lo.y ≠ padded.lo.y ∨ orig.hi.y ≠ padded.hi.y ∨
         orig.lo.x ≠ padded.lo.x ∨ orig.hi.x ≠ padded.hi.x) :
    haloBoxes orig padded ≠ [] := by
  intro hnil
  rw [haloBoxes] at hnil
  simp only [List.append_eq_nil, optBox_eq_nil] at hnil
  tauto

/-- `Except.isOk` as a plain definition, so concrete success is decidable. -/
def exOk {β : Type} : Except String β → Bool
  | .ok _ => true
  | .error _ => false

/-- Under the pad preconditions the snapped box stays inside the logical box. -/
lemma paddedBoxOf_subset_logical {α : Type}
    (G : Grid3) (b : BrickL α)
    (hbs : V3.allLT V3.zero G.blockShape)
    (hla : logicalAligned G b)
    (hsub : Box3.subset b.physical b.logical) :
    V3.allLE b.logical.lo (paddedBoxOf G b).lo ∧
    V3.allLE (paddedBoxOf G b).hi b.logical.hi := by
  obtain ⟨hbz, hby, hbx⟩ := hbs
  simp only [logicalAligned, Box3.unshift, V3.sub] at hla
  simp only [Box3.subset, V3.allLE] at hsub
  obtain ⟨⟨hs1, hs2, hs3⟩, hs4, hs5, hs6⟩ := hsub
  obtain ⟨hl1, hl2, hl3, hl4, hl5, hl6⟩ := hla
  simp only [paddedBoxOf, Box3.shift, Box3.unshift, V3.add, V3.sub, V3.allLE]
  refine ⟨⟨?_, ?_, ?_⟩, ?_, ?_, ?_⟩
  · have := floor_block_ge (b.logical.lo.z - G.offset.z) (b.physical.lo.z - G.offset.z)
      G.blockShape.z hbz hl1 (by omega)
    linarith
  · have := floor_block_ge (b.logical.lo.y - G.offset.y) (b.physical.lo.y - G.offset.y)
      G.blockShape.y hby hl2 (by omega)
    linarith
  · have := floor_block_ge (b.logical.lo.x - G.offset.x) (b.physical.lo.x - G.offset.x)
      G.blockShape.x hbx hl3 (by omega)
    linarith
  · have := ceil_block_le (b.logical.hi.z - G.offset.z) (b.physical.hi.z - G.offset.z)
      G.blockShape.z hbz hl4 (by omega)
    linarith
  · have := ceil_block_le (b.logical.hi.y - G.offset.y) (b.physical.hi.y - G.offset.y)
      G.blockShape.y hby hl5 (by omega)
    linarith
  · have := ceil_block_le (b.logical.hi.x - G.offset.x) (b.physical.hi.x - G.offset.x)
      G.blockShape.x hbx hl6 (by omega)
    linarith

/-- A misaligned physical box differs from its padded box somewhere. -/
lemma paddedBoxOf_differs {α : Type} (G : Grid3) (b : BrickL α)
    (hal : ¬ offsetPhysAligned G b) :
    b.physical.lo.z ≠ (paddedBoxOf G b).lo.z ∨
    b.physical.hi.z ≠ (paddedBoxOf G b).hi.z ∨
    b.physical.lo.y ≠ (paddedBoxOf G b).lo.y ∨
    b.physical.hi.y ≠ (paddedBoxOf G b).hi.y ∨
    b.physical.lo.x ≠ (paddedBoxOf G b).lo.x ∨
    b.physical.hi.x ≠ (paddedBoxOf G b).hi.x := by
  have halc := hal
  simp only [offsetPhysAligned, Box3.unshift, V3.sub] at halc
  by_cases h1 : (b.physical.lo.z - G.offset.z) % G.blockShape.z = 0 <;>
  by_cases h2 : (b.physical.lo.y - G.offset.y) % G.blockShape.y = 0 <;>
  by_cases h3 : (b.physical.lo.x - G.offset.x) % G.blockShape.x = 0 <;>
  by_cases h4 : (b.physical.hi.z - G.offset.z) % G.blockShape.z = 0 <;>
  by_cases h5 : (b.physical.hi.y - G.offset.y) % G.blockShape.y = 0 <;>
  by_cases h6 : (b.physical.hi.x - G.offset.x) % G.blockShape.x = 0
  case pos => exact absurd ⟨h1, h2, h3, h4, h5, h6⟩ halc
  all_goals
    simp only [paddedBoxOf, Box3.shift, Box3.unshift, V3.add, V3.sub]
    first
    | (left
       have := floor_block_ne (b.physical.lo.z - G.offset.z) G.blockShape.z ‹_›
       intro hc; apply this; omega)
    | (right; left
       have := ceil_block_ne (b.physical.hi.z - G.offset.z) G.blockShape.z ‹_›
       intro hc; apply this; omega)
    | (right; right; left
       have := floor_block_ne (b.physical.lo.y - G.offset.y) G.blockShape.y ‹_›
       intro hc; apply this; omega)
    | (right; right; right; left
       have := ceil_block_ne (b.physical.hi.y - G.offset.y) G.blockShape.y ‹_›
       intro hc; apply this; omega)
    | (right; right; right; right; left
       have := floor_block_ne (b.physical.lo.x - G.offset.x) G.blockShape.x ‹_›
       intro hc; apply this; omega)
    | (right; right; right; right; right
       have := ceil_block_ne (b.physical.hi.x - G.offset.x) G.blockShape.x ‹_›
       intro hc; apply this; omega)

/-- C5 — under `pad_brick`'s stated preconditions (positive block shape,
zero grid halo, grid-aligned logical box, physical box inside the logical
box, live brick), the outward-snapped `padded_box` is contained in the
logical box, and `pad_brick` raises no assertion: it always succeeds. -/
theorem padded_box_within_logical {α : Type} [Zero α]
    (G : Grid3) (acc : Accessor α) (b : BrickL α)
    (hbs : V3.allLT V3.zero G.blockShape)
    (hhalo : V3.isZero G.halo)
    (hla : logicalAligned G b)
    (hsub : Box3.subset b.physical b.logical)
    (hnd : b.destroyed = false) :
    (V3.allLE b.logical.lo (paddedBoxOf G b).lo ∧
     V3.allLE (paddedBoxOf G b).hi b.logical.hi) ∧
    exOk (padBrickE G acc b) = true := by
  have hcont := paddedBoxOf_subset_logical G b hbs hla hsub
  refine ⟨hcont, ?_⟩
  by_cases hal : offsetPhysAligned G b
  · simp [padBrickE, hhalo, hla, hal, exOk]
  · have hne : haloBoxes b.physical (paddedBoxOf G b) ≠ [] :=
      haloBoxes_ne_nil _ _ (paddedBoxOf_differs G b hal)
    simp [padBrickE, hhalo, hla, hal, hcont.1, hcont.2, hnd, hne, exOk]

/-- A concrete padding grid (block (2,2,2), offset 0, no halo). -/
def c5grid : Grid3 := ⟨⟨2, 2, 2⟩, ⟨0, 0, 0⟩, ⟨0, 0, 0⟩⟩

/-- An accessor returning zeros everywhere. -/
def zeroAcc : Accessor ℤ := fun _ => zerosVol

/-- A concrete partial brick: logical `[(0,0,0),(2,2,2))`, physical
`[(1,1,1),(2,2,2))`. -/
def c5brick : BrickL ℤ := ⟨⟨⟨0, 0, 0⟩, ⟨2, 2, 2⟩⟩, ⟨⟨1, 1, 1⟩, ⟨2, 2, 2⟩⟩, fun _ => 3, false⟩

theorem padded_box_within_logical_witness :
    logicalAligned c5grid c5brick ∧
    exOk (padBrickE c5grid zeroAcc c5brick) = true :=
  ⟨by decide,
   (padded_box_within_logical c5grid zeroAcc c5brick (by decide) (by decide)
     (by decide) (by decide) rfl).2⟩

/-- The padded box is itself aligned to the padding grid. -/
lemma paddedBoxOf_aligned {α : Type} (G : Grid3) (b : BrickL α) (v : Vol3 α) (d : Bool) :
    offsetPhysAligned G (⟨b.logical, paddedBoxOf G b, v, d⟩ : BrickL α) := by
  simp only [offsetPhysAligned, paddedBoxOf, Box3.shift, Box3.unshift, V3.add, V3.sub]
  refine ⟨?_, ?_, ?_, ?_, ?_, ?_⟩ <;>
    (rw [add_sub_cancel_right]; exact Int.mul_emod_left _ _)

/-- C4 — when the offset physical box is already grid-aligned,
`pad_brick` returns the original brick unchanged with no accessor calls;
and `pad_brick` is idempotent: re-padding any result of `pad_brick` with
the same grid returns it unchanged (and calls the accessor never). -/
theorem pad_brick_idempotent {α : Type} [Zero α]
    (G : Grid3) (acc : Accessor α) (b b' : BrickL α) (t : List Box3)
    (hpad : padBrickE G acc b = .ok (b', t)) :
    (offsetPhysAligned G b → b' = b ∧ t = []) ∧
    padBrickE G acc b' = .ok (b', []) := by
  simp only [padBrickE] at hpad
  by_cases hh : V3.isZero G.halo
  case neg => rw [if_neg hh] at hpad; cases hpad
  rw [if_pos hh] at hpad
  by_cases hla : logicalAligned G b
  case neg => rw [if_neg hla] at hpad; cases hpad
  rw [if_pos hla] at hpad
  by_cases hal : offsetPhysAligned G b
  · rw [if_pos hal] at hpad
    simp only [Except.ok.injEq, Prod.mk.injEq] at hpad
    obtain ⟨rfl, rfl⟩ := hpad
    exact ⟨fun _ => ⟨rfl, rfl⟩, by simp [padBrickE, hh, hla, hal]⟩
  · rw [if_neg hal] at hpad
    by_cases hcont : V3.allLE b.logical.lo (paddedBoxOf G b).lo ∧
        V3.allLE (paddedBoxOf G b).hi b.logical.hi
    case neg => rw [if_neg hcont] at hpad; cases hpad
    rw [if_pos hcont] at hpad
    by_cases hnd : b.destroyed = true
    case pos => rw [if_pos hnd] at hpad; cases hpad
    rw [if_neg hnd] at hpad
    by_cases hsl : haloBoxes b.physical (paddedBoxOf G b) = []
    case pos => rw [if_pos hsl] at hpad; cases hpad
    rw [if_neg hsl] at hpad
    simp only [Except.ok.injEq, Prod.mk.injEq] at hpad
    obtain ⟨rfl, rfl⟩ := hpad
    refine ⟨fun hal' => absurd hal' hal, ?_⟩
    have hla2 : logicalAligned G
        (⟨b.logical, paddedBoxOf G b,
          (haloBoxes b.physical (paddedBoxOf G b)).foldl
            (fun vol hb => overwriteSubvol vol (hb.unshift (paddedBoxOf G b).lo) (acc hb))
            (overwriteSubvol zerosVol (b.physical.unshift (paddedBoxOf G b).lo) b.vol),
          false⟩ : BrickL α) := hla
    simp [padBrickE, hh, hla2, paddedBoxOf_aligned]

/-- A concrete aligned brick: physical = logical = one whole grid cell. -/
def c4brick : BrickL ℤ := ⟨⟨⟨0, 0, 0⟩, ⟨2, 2, 2⟩⟩, ⟨⟨0, 0, 0⟩, ⟨2, 2, 2⟩⟩, fun _ => 5, false⟩

theorem pad_brick_idempotent_witness :
    padBrickE c5grid zeroAcc c4brick = .ok (c4brick, []) ∧
    offsetPhysAligned c5grid c4brick ∧
    c4brick = c4brick ∧
    padBrickE c5grid zeroAcc c4brick = .ok (c4brick, []) :=
  ⟨rfl, by decide,
   ((pad_brick_idempotent c5grid zeroAcc c4brick c4brick [] rfl).1 (by decide)).1.symm ▸ rfl,
   (pad_brick_idempotent c5grid zeroAcc c4brick c4brick [] rfl).2⟩

/-! ## The halo-slab decomposition (claim on brick.py lines 350–372) -/

lemma mem_optBox (c : Prop) [Decidable c] (b hb : Box3) :
    hb ∈ optBox c b ↔ c ∧ hb = b := by
  unfold optBox
  split <;> simp_all

lemma optBox_length_le (c : Prop) [Decidable c] (b : Box3) : (optBox c b).length ≤ 1 := by
  unfold optBox
  split <;> simp

lemma optBox_cases {c : Prop} [Decidable c] {b hb : Box3} (h : hb ∈ optBox c b) :
    c ∧ hb = b := by
  unfold optBox at h
  split at h
  · simp only [List.mem_singleton] at h
    exact ⟨‹_›, h⟩
  · simp at h

lemma optBox_self {c : Prop} [Decidable c] (hc : c) (b : Box3) : b ∈ optBox c b := by
  unfold optBox
  rw [if_pos hc]
  exact List.mem_singleton_self b

/-- There are at most six halo slabs. -/
lemma haloBoxes_length_le (orig padded : Box3) : (haloBoxes orig padded).length ≤ 6 := by
  rw [haloBoxes]
  simp only [List.length_append]
  have h1 := optBox_length_le (orig.lo.z ≠ padded.lo.z)
    (⟨padded.lo, ⟨orig.lo.z, padded.hi.y, padded.hi.x⟩⟩ : Box3)
  have h2 := optBox_length_le (orig.hi.z ≠ padded.hi.z)
    (⟨⟨orig.hi.z, padded.lo.y, padded.lo.x⟩, padded.hi⟩ : Box3)
  have h3 := optBox_length_le (orig.lo.y ≠ padded.lo.y)
    (⟨padded.lo, ⟨padded.hi.z, orig.lo.y, padded.hi.x⟩⟩ : Box3)
  have h4 := optBox_length_le (orig.hi.y ≠ padded.hi.y)
    (⟨⟨padded.lo.z, orig.hi.y, padded.lo.x⟩, padded.hi⟩ : Box3)
  have h5 := optBox_length_le (orig.lo.x ≠ padded.lo.x)
    (⟨padded.lo, ⟨padded.hi.z, padded.hi.y, orig.lo.x⟩⟩ : Box3)
  have h6 := optBox_length_le (orig.hi.x ≠ padded.hi.x)
    (⟨⟨padded.lo.z, padded.lo.y, orig.hi.x⟩, padded.hi⟩ : Box3)
  omega

/-- Flooring to a block multiple does not increase. -/
lemma floor_mul_le (a bs : ℤ) (hbs : 0 < bs) : a / bs * bs ≤ a := by
  have h1 := Int.emod_nonneg a (ne_of_gt hbs)
  have h2 := Int.emod_def a bs
  rw [mul_comm]
  linarith

/-- The outward ceiling does not decrease. -/
lemma le_ceil_mul (q bs : ℤ) (hbs : 0 < bs) : q ≤ (q + bs - 1) / bs * bs := by
  have h1 := Int.emod_lt_of_pos (q + bs - 1) hbs
  have h2 := Int.emod_def (q + bs - 1) bs
  rw [mul_comm]
  linarith

/-- The physical box is contained in its padded box. -/
lemma phys_subset_paddedBoxOf {α : Type} (G : Grid3) (b : BrickL α)
    (hbs : V3.allLT V3.zero G.blockShape) :
    Box3.subset b.physical (paddedBoxOf G b) := by
  obtain ⟨hbz, hby, hbx⟩ := hbs
  simp only [Box3.subset, paddedBoxOf, Box3.shift, Box3.unshift, V3.add, V3.sub, V3.allLE]
  refine ⟨⟨?_, ?_, ?_⟩, ?_, ?_, ?_⟩
  · have := floor_mul_le (b.physical.lo.z - G.offset.z) G.blockShape.z hbz
    omega
  · have := floor_mul_le (b.physical.lo.y - G.offset.y) G.blockShape.y hby
    omega
  · have := floor_mul_le (b.physical.lo.x - G.offset.x) G.blockShape.x hbx
    omega
  · have := le_ceil_mul (b.physical.hi.z - G.offset.z) G.blockShape.z hbz
    omega
  · have := le_ceil_mul (b.physical.hi.y - G.offset.y) G.blockShape.y hby
    omega
  · have := le_ceil_mul (b.physical.hi.x - G.offset.x) G.blockShape.x hbx
    omega

/-- C2 (amended) — when `pad_brick` actually pads, the halo slabs passed
to the accessor are exactly the computed slab list, one accessor call per
slab: there are at most six, at least one exists, each lies inside the
padded box and entirely outside the original physical box, and together
they cover every padded voxel not already present.  (They are *not*
pairwise disjoint: slabs of different axes overlap in corner regions.) -/
theorem pad_halo_slabs {α : Type} [Zero α]
    (G : Grid3) (acc : Accessor α) (b : BrickL α)
    (hbs : V3.allLT V3.zero G.blockShape)
    (hhalo : V3.isZero G.halo)
    (hla : logicalAligned G b)
    (hsub : Box3.subset b.physical b.logical)
    (hphys : V3.allLE b.physical.lo b.physical.hi)
    (hnd : b.destroyed = false)
    (hal : ¬ offsetPhysAligned G b) :
    (padBrickE G acc b).map Prod.snd =
      .ok (haloBoxes b.physical (paddedBoxOf G b)) ∧
    (haloBoxes b.physical (paddedBoxOf G b)).length ≤ 6 ∧
    haloBoxes b.physical (paddedBoxOf G b) ≠ [] ∧
    (∀ hb ∈ haloBoxes b.physical (paddedBoxOf G b),
      Box3.subset hb (paddedBoxOf G b) ∧
      ∀ p : V3, Box3.memB p hb → ¬ Box3.memB p b.physical) ∧
    (∀ p : V3, Box3.memB p (paddedBoxOf G b) → ¬ Box3.memB p b.physical →
      ∃ hb ∈ haloBoxes b.physical (paddedBoxOf G b), Box3.memB p hb) := by
  have hcont := paddedBoxOf_subset_logical G b hbs hla hsub
  have hne : haloBoxes b.physical (paddedBoxOf G b) ≠ [] :=
    haloBoxes_ne_nil _ _ (paddedBoxOf_differs G b hal)
  have hpp := phys_subset_paddedBoxOf G b hbs
  simp only [Box3.subset, V3.allLE] at hpp
  obtain ⟨⟨hpp1, hpp2, hpp3⟩, hpp4, hpp5, hpp6⟩ := hpp
  obtain ⟨hph1, hph2, hph3⟩ := hphys
  refine ⟨?_, haloBoxes_length_le _ _, hne, ?_, ?_⟩
  · simp [padBrickE, Except.map, hhalo, hla, hal, hcont.1, hcont.2, hnd, hne]
  · intro hb hmem
    rw [haloBoxes] at hmem
    simp only [List.mem_append] at hmem
    rcases hmem with ((((h | h) | h) | h) | h) | h <;>
      obtain ⟨hg, rfl⟩ := optBox_cases h <;>
      exact ⟨by simp only [Box3.subset, V3.allLE]; omega,
             fun p hp hp2 => by
               simp only [Box3.memB, V3.allLE, V3.allLT] at hp hp2
               omega⟩
  · intro p hp hnotin
    simp only [Box3.memB, V3.allLE, V3.allLT] at hp hnotin
    obtain ⟨⟨hq1, hq2, hq3⟩, hq4, hq5, hq6⟩ := hp
    by_cases c1 : p.z < b.physical.lo.z
    · refine ⟨⟨(paddedBoxOf G b).lo,
        ⟨b.physical.lo.z, (paddedBoxOf G b).hi.y, (paddedBoxOf G b).hi.x⟩⟩, ?_, ?_⟩
      · rw [haloBoxes]
        exact (List.mem_append_left _ (List.mem_append_left _ (List.mem_append_left _ (List.mem_append_left _ (List.mem_append_left _ (optBox_self (by omega) _))))))
      · simp only [Box3.memB, V3.allLE, V3.allLT]
        omega
    by_cases c2 : b.physical.hi.z ≤ p.z
    · refine ⟨⟨⟨b.physical.hi.z, (paddedBoxOf G b).lo.y, (paddedBoxOf G b).lo.x⟩,
        (paddedBoxOf G b).hi⟩, ?_, ?_⟩
      · rw [haloBoxes]
        exact (List.mem_append_left _ (List.mem_append_left _ (List.mem_append_left _ (List.mem_append_left _ (List.mem_append_right _ (optBox_self (by omega) _))))))
      · simp only [Box3.memB, V3.allLE, V3.allLT]
        omega
    by_cases c3 : p.y < b.physical.lo.y
    · refine ⟨⟨(paddedBoxOf G b).lo,
        ⟨(paddedBoxOf G b).hi.z, b.physical.lo.y, (paddedBoxOf G b).hi.x⟩⟩, ?_, ?_⟩
      · rw [haloBoxes]
        exact (List.mem_append_left _ (List.mem_append_left _ (List.mem_append_left _ (List.mem_append_right _ (optBox_self (by omega) _)))))
      · simp only [Box3.memB, V3.allLE, V3.allLT]
        omega
    by_cases c4 : b.physical.hi.y ≤ p.y
    · refine ⟨⟨⟨(paddedBoxOf G b).lo.z, b.physical.hi.y, (paddedBoxOf G b).lo.x⟩,
        (paddedBoxOf G b).hi⟩, ?_, ?_⟩
      · rw [haloBoxes]
        exact (List.mem_append_left _ (List.mem_append_left _ (List.mem_append_right _ (optBox_self (by omega) _))))
      · simp only [Box3.memB, V3.allLE, V3.allLT]
        omega
    by_cases c5 : p.x < b.physical.lo.x
    · refine ⟨⟨(paddedBoxOf G b).lo,
        ⟨(paddedBoxOf G b).hi.z, (paddedBoxOf G b).hi.y, b.physical.lo.x⟩⟩, ?_, ?_⟩
      · rw [haloBoxes]
        exact (List.mem_append_left _ (List.mem_append_right _ (optBox_self (by omega) _)))
      · simp only [Box3.memB, V3.allLE, V3.allLT]
        omega
    by_cases c6 : b.physical.hi.x ≤ p.x
    · refine ⟨⟨⟨(paddedBoxOf G b).lo.z, (paddedBoxOf G b).lo.y, b.physical.hi.x⟩,
        (paddedBoxOf G b).hi⟩, ?_, ?_⟩
      · rw [haloBoxes]
        exact (List.mem_append_right _ (optBox_self (by omega) _))
      · simp only [Box3.memB, V3.allLE, V3.allLT]
        omega
    exact absurd ⟨⟨by omega, by omega, by omega⟩, by omega, by omega, by omega⟩ hnotin

/-- A padding grid of one 4³ block. -/
def c2grid : Grid3 := ⟨⟨4, 4, 4⟩, ⟨0, 0, 0⟩, ⟨0, 0, 0⟩⟩

/-- A brick missing padding on both the z-leading and y-leading sides. -/
def c2brick : BrickL ℤ := ⟨⟨⟨0, 0, 0⟩, ⟨4, 4, 4⟩⟩, ⟨⟨1, 1, 0⟩, ⟨4, 4, 4⟩⟩, fun _ => 7, false⟩

/-- Counterexample to C5's disjointness clause as stated: padding
`c2brick` issues exactly two accessor calls whose boxes overlap — the
corner region `[(0,0,0),(1,1,4))` is fetched twice. -/
theorem pad_halo_slabs_counterexample :
    (padBrickE c2grid zeroAcc c2brick).map Prod.snd =
      .ok [⟨⟨0, 0, 0⟩, ⟨1, 4, 4⟩⟩, ⟨⟨0, 0, 0⟩, ⟨4, 1, 4⟩⟩] ∧
    Box3.memB ⟨0, 0, 0⟩ (⟨⟨0, 0, 0⟩, ⟨1, 4, 4⟩⟩ : Box3) ∧
    Box3.memB ⟨0, 0, 0⟩ (⟨⟨0, 0, 0⟩, ⟨4, 1, 4⟩⟩ : Box3) ∧
    Box3.nonEmpty (Box3.inter ⟨⟨0, 0, 0⟩, ⟨1, 4, 4⟩⟩ ⟨⟨0, 0, 0⟩, ⟨4, 1, 4⟩⟩) :=
  ⟨rfl, by decide, by decide, by decide⟩

theorem pad_halo_slabs_witness :
    ¬ offsetPhysAligned c2grid c2brick ∧
    (haloBoxes c2brick.physical (paddedBoxOf c2grid c2brick)).length ≤ 6 ∧
    haloBoxes c2brick.physical (paddedBoxOf c2grid c2brick) ≠ [] :=
  ⟨by decide,
   (pad_halo_slabs c2grid zeroAcc c2brick (by decide) (by decide) (by decide)
     (by decide) (by decide) rfl (by decide)).2.1,
   (pad_halo_slabs c2grid zeroAcc c2brick (by decide) (by decide) (by decide)
     (by decide) (by decide) rfl (by decide)).2.2.1⟩

/-! ## The split key hash (claim on brick.py line 522) -/

instance {ε α : Type} [DecidableEq ε] [DecidableEq α] : DecidableEq (Except ε α) :=
  fun x y =>
    match x, y with
    | .ok a, .ok b => if h : a = b then .isTrue (by rw [h]) else .isFalse (by simp [h])
    | .error e, .error f => if h : e = f then .isTrue (by rw [h]) else .isFalse (by simp [h])
    | .ok _, .error _ => .isFalse (by simp)
    | .error _, .ok _ => .isFalse (by simp)

lemma mul_one_mod_mod (m acc : ℕ) : acc * (1 % m) % m % m = acc % m := by
  rw [Nat.mod_mod_of_dvd _ (dvd_refl m)]
  rw [Nat.mul_mod acc (1 % m) m]
  rw [Nat.mod_mod_of_dvd 1 (dvd_refl m)]
  rw [← Nat.mul_mod]
  rw [mul_one]

lemma powModGo_one (m : ℕ) :
    ∀ (f e acc : ℕ), powModGo m f (1 % m) e acc = acc % m := by
  intro f
  induction f with
  | zero => intro e acc; rfl
  | succ f ih =>
    intro e acc
    by_cases he : e = 0
    · simp [powModGo, he]
    · show powModGo m (f + 1) (1 % m) e acc = acc % m
      unfold powModGo
      rw [if_neg he]
      have hb : 1 % m * (1 % m) % m = 1 % m := by
        conv_lhs => rw [← Nat.mul_mod]
      rw [hb, ih]
      by_cases hp : e % 2 = 1
      · rw [if_pos hp]
        exact mul_one_mod_mod m acc
      · rw [if_neg hp]

/-- `powMod` at base 1 is the identity lane. -/
lemma powMod_one (e m : ℕ) : powMod 1 e m = 1 % m := by
  unfold powMod
  rw [powModGo_one]

/-- CPython's rational hash agrees with its integer hash on integers
(the cross-type hash-equality invariant). -/
lemma pyHashRat_intCast (n : ℤ) : pyHashRat (n : ℚ) = pyHashInt n := by
  unfold pyHashRat pyHashInt
  rw [Rat.num_intCast, Rat.den_intCast, powMod_one]
  have h1 : (1 : ℕ) % pyM = 1 := Nat.mod_eq_of_lt (by norm_num [pyM])
  rw [h1, mul_one, Nat.mod_mod_of_dvd _ (dvd_refl pyM)]

/-- Exact division of a multiple casts to the integer quotient. -/
lemma ratDiv_of_dvd (lo bs : ℤ) (h : bs ∣ lo) (hbs : bs ≠ 0) :
    Rat.divInt lo bs = ((lo / bs : ℤ) : ℚ) := by
  rw [Rat.divInt_eq_div]
  obtain ⟨q, rfl⟩ := h
  rw [Int.mul_ediv_cancel_left q hbs]
  push_cast
  rw [mul_comm, mul_div_assoc, div_self (by exact_mod_cast hbs), mul_one]

/-- When the block shape divides the key's lower corner, the true-division
hash of the source coincides with the floor-division hash of the spec. -/
lemma splitKeyHash_eq_floor_of_dvd (box : Box3) (bs : V3)
    (hz : bs.z ∣ box.lo.z) (hy : bs.y ∣ box.lo.y) (hx : bs.x ∣ box.lo.x)
    (hz0 : bs.z ≠ 0) (hy0 : bs.y ≠ 0) (hx0 : bs.x ≠ 0) :
    splitKeyHash box bs = splitKeyHashFloor box bs := by
  unfold splitKeyHash splitKeyHashFloor
  rw [ratDiv_of_dvd _ _ hz hz0, ratDiv_of_dvd _ _ hy hy0, ratDiv_of_dvd _ _ hx hx0]
  rw [pyHashRat_intCast, pyHashRat_intCast, pyHashRat_intCast]

/-- C3 (amended) — every key emitted by `split_brick` carries the
destination logical box as its value, and its custom hash is the CPython
hash of `new_logical_box.lo / block_shape` under *true* division (as the
code computes); whenever the block shape divides the destination box's
lower corner — e.g. for any grid whose offset is a multiple of its block
shape — this coincides with the hash of the floor-division that the spec
states. -/
theorem split_key_hash_amended {α : Type} (newGrid : Grid3) (brick : BrickL α)
    (ks : List KeyH) (hks : splitKeysE newGrid brick = .ok ks)
    (k : KeyH) (hk : k ∈ ks) :
    (∃ d ∈ cellsOver brick.physical newGrid true,
        k.box = ⟨d.lo.add newGrid.halo, d.hi.sub newGrid.halo⟩) ∧
    k.khash = splitKeyHash k.box newGrid.blockShape ∧
    (newGrid.blockShape.z ∣ k.box.lo.z → newGrid.blockShape.y ∣ k.box.lo.y →
     newGrid.blockShape.x ∣ k.box.lo.x →
     newGrid.blockShape.z ≠ 0 → newGrid.blockShape.y ≠ 0 → newGrid.blockShape.x ≠ 0 →
     k.khash = splitKeyHashFloor k.box newGrid.blockShape) := by
  unfold splitKeysE splitBrickE at hks
  by_cases hs : Box3.subset brick.physical brick.logical
  case neg =>
    simp only [if_neg hs] at hks
    cases hks
  by_cases hd0 : brick.destroyed = true
  case pos =>
    simp only [if_pos hs, hd0, if_true] at hks
    cases hks
  simp only [if_pos hs, if_neg hd0, Except.ok.injEq] at hks
  subst hks
  rw [List.map_map, List.mem_map] at hk
  obtain ⟨d, hd, rfl⟩ := hk
  refine ⟨⟨d, hd, rfl⟩, rfl, ?_⟩
  intro hz hy hx hz0 hy0 hx0
  exact splitKeyHash_eq_floor_of_dvd _ _ hz hy hx hz0 hy0 hx0

/-- The destination grid of the counterexample: block (2,2,2) but
offset (1,1,1) — the offset is not a multiple of the block shape. -/
def c3grid : Grid3 := ⟨⟨2, 2, 2⟩, ⟨1, 1, 1⟩, ⟨0, 0, 0⟩⟩

/-- A brick occupying exactly one destination cell of `c3grid`. -/
def c3brick : BrickL ℤ := ⟨⟨⟨1, 1, 1⟩, ⟨3, 3, 3⟩⟩, ⟨⟨1, 1, 1⟩, ⟨3, 3, 3⟩⟩, fun _ => 1, false⟩

set_option maxRecDepth 100000 in
/-- Counterexample to C3 as stated: the emitted key's hash is the CPython
hash of `(0.5, 0.5, 0.5)` (true division of `(1,1,1)` by `(2,2,2)`),
which differs from the hash of the floor-division `(0,0,0)`. -/
theorem split_key_hash_counterexample :
    splitKeysE c3grid c3brick =
      .ok [⟨⟨⟨1, 1, 1⟩, ⟨3, 3, 3⟩⟩, 14509036162380644793⟩] ∧
    splitKeyHashFloor ⟨⟨1, 1, 1⟩, ⟨3, 3, 3⟩⟩ (⟨2, 2, 2⟩ : V3) = 3010437511937009226 ∧
    (14509036162380644793 : ℕ) ≠ 3010437511937009226 :=
  ⟨by decide, by decide, by decide⟩

/-- A zero-offset destination grid for the witness. -/
def c3grid0 : Grid3 := ⟨⟨2, 2, 2⟩, ⟨0, 0, 0⟩, ⟨0, 0, 0⟩⟩

/-- The brick of the witness, on the cell `[(0,0,0),(2,2,2))`. -/
def c3brick0 : BrickL ℤ := ⟨⟨⟨0, 0, 0⟩, ⟨2, 2, 2⟩⟩, ⟨⟨0, 0, 0⟩, ⟨2, 2, 2⟩⟩, fun _ => 1, false⟩

/-- The single key emitted for `c3brick0` under `c3grid0`. -/
def c3key : KeyH := ⟨⟨⟨0, 0, 0⟩, ⟨2, 2, 2⟩⟩, 3010437511937009226⟩

set_option maxRecDepth 100000 in
theorem split_key_hash_amended_witness :
    splitKeysE c3grid0 c3brick0 = .ok [c3key] ∧
    c3key.khash = splitKeyHash c3key.box c3grid0.blockShape ∧
    c3key.khash = splitKeyHashFloor c3key.box c3grid0.blockShape :=
  ⟨by decide,
   (split_key_hash_amended c3grid0 c3brick0 [c3key] (by decide) c3key (by decide)).2.1,
   (split_key_hash_amended c3grid0 c3brick0 [c3key] (by decide) c3key (by decide)).2.2
     (by decide) (by decide) (by decide) (by decide) (by decide) (by decide)⟩

/-! ## Assembly (claim on brick.py lines 556–584) -/

/-- Disjoint boxes (empty `box_intersection`) share no point. -/
lemma not_memB_of_disjoint {a b : Box3} (h : ¬ Box3.nonEmpty (Box3.inter a b))
    {p : V3} (ha : Box3.memB p a) (hb : Box3.memB p b) : False := by
  apply h
  simp only [Box3.nonEmpty, Box3.inter, V3.vmax, V3.vmin, V3.allLT] at *
  simp only [Box3.memB, V3.allLE, V3.allLT] at ha hb
  omega

/-- Membership in an unshifted box is membership of the shifted point. -/
lemma memB_unshift (p d : V3) (b : Box3) :
    Box3.memB (p.sub d) (b.unshift d) ↔ Box3.memB p b := by
  cases p; cases d; cases b with
  | mk lo hi =>
    cases lo; cases hi
    simp only [Box3.memB, Box3.unshift, V3.sub, V3.allLE, V3.allLT]
    omega

/-- The accumulating copy loop succeeds on live fragments and returns the
left fold of the overwrites with every fragment destroyed. -/
lemma assembleLoop_ok {α : Type} (finalLo : V3) :
    ∀ (fs : List (BrickL α)) (vol : Vol3 α), (∀ f ∈ fs, f.destroyed = false) →
      assembleLoop finalLo vol fs =
        .ok (fs.foldl (fun v f => overwriteSubvol v (f.physical.unshift finalLo) f.vol) vol,
             fs.map BrickL.destroy) := by
  intro fs
  induction fs with
  | nil => intro vol _; rfl
  | cons g rest ih =>
    intro vol hnd
    have hg : g.destroyed = false := hnd g (List.mem_cons_self g rest)
    show assembleLoop finalLo vol (g :: rest) = _
    unfold assembleLoop
    rw [if_neg (by rw [hg]; exact Bool.false_ne_true)]
    rw [ih _ (fun f hf => hnd f (List.mem_cons_of_mem g hf))]
    rfl

/-- A point outside every fragment keeps its base value through the fold. -/
lemma foldVol_untouched {α : Type} (finalLo : V3) (p : V3) :
    ∀ (fs : List (BrickL α)) (vol : Vol3 α),
      (∀ f ∈ fs, ¬ Box3.memB p f.physical) →
      fs.foldl (fun v f => overwriteSubvol v (f.physical.unshift finalLo) f.vol) vol
          (p.sub finalLo) = vol (p.sub finalLo) := by
  intro fs
  induction fs with
  | nil => intro vol _; rfl
  | cons g rest ih =>
    intro vol hout
    show List.foldl _ (overwriteSubvol vol (g.physical.unshift finalLo) g.vol) rest _ = _
    rw [ih _ (fun f hf => hout f (List.mem_cons_of_mem g hf))]
    unfold overwriteSubvol
    rw [if_neg]
    intro hmem
    exact hout g (List.mem_cons_self g rest) ((memB_unshift p finalLo g.physical).mp hmem)

/-- A point inside a fragment of a pairwise-disjoint family receives that
fragment's voxel through the fold. -/
lemma foldVol_covered {α : Type} (finalLo : V3) (p : V3) :
    ∀ (fs : List (BrickL α)) (vol : Vol3 α),
      fs.Pairwise (fun a b => ¬ Box3.nonEmpty (Box3.inter a.physical b.physical)) →
      ∀ f ∈ fs, Box3.memB p f.physical →
      fs.foldl (fun v f => overwriteSubvol v (f.physical.unshift finalLo) f.vol) vol
          (p.sub finalLo) = f.vol (p.sub f.physical.lo) := by
  intro fs
  induction fs with
  | nil => intro vol _ f hf; cases hf
  | cons g rest ih =>
    intro vol hdisj f hf hmem
    rw [List.pairwise_cons] at hdisj
    rcases List.mem_cons.mp hf with rfl | hf'
    · show List.foldl _ (overwriteSubvol vol (f.physical.unshift finalLo) f.vol) rest _ = _
      rw [foldVol_untouched finalLo p rest _
        (fun b hb hpb => not_memB_of_disjoint (hdisj.1 b hb) hmem hpb)]
      unfold overwriteSubvol
      rw [if_pos ((memB_unshift p finalLo f.physical).mpr hmem)]
      have : (p.sub finalLo).sub ((f.physical.unshift finalLo).lo) = p.sub f.physical.lo := by
        cases p; cases finalLo
        cases f.physical with
        | mk lo hi =>
          cases lo
          simp only [Box3.unshift, V3.sub, V3.mk.injEq]
          omega
      rw [this]
    · exact ih _ hdisj.2 f hf' hmem

/-- C1 — assembling a non-empty family of live fragments that share one
logical box, have pairwise-disjoint physical boxes, and whose min/max
union meets the logical box, yields a brick whose physical box is that
componentwise union, whose buffer holds each fragment's voxels on that
fragment's physical box and zero at every uncovered position, with every
fragment destroyed after its data is copied. -/
theorem assemble_brick_fragments_spec {α : Type} [Zero α]
    (f0 : BrickL α) (rest : List (BrickL α)) (L : Box3)
    (hL : ∀ f ∈ f0 :: rest, f.logical = L)
    (hnd : ∀ f ∈ f0 :: rest, f.destroyed = false)
    (hdisj : (f0 :: rest).Pairwise
      (fun a b => ¬ Box3.nonEmpty (Box3.inter a.physical b.physical)))
    (hint : ¬ interiorEmpty (Box3.inter (unionPhysicalBox f0 rest) L)) :
    ∃ brick : BrickL α,
      assembleE (f0 :: rest) = .ok (some brick, (f0 :: rest).map BrickL.destroy) ∧
      brick.logical = L ∧
      brick.physical = unionPhysicalBox f0 rest ∧
      (∀ (p : V3) (f : BrickL α), f ∈ f0 :: rest → Box3.memB p f.physical →
        brick.vol (p.sub (unionPhysicalBox f0 rest).lo) = f.vol (p.sub f.physical.lo)) ∧
      (∀ p : V3, (∀ f ∈ f0 :: rest, ¬ Box3.memB p f.physical) →
        brick.vol (p.sub (unionPhysicalBox f0 rest).lo) = 0) := by
  have h0 : f0.logical = L := hL f0 (List.mem_cons_self f0 rest)
  have hall : (rest.all fun f => decide (f.logical = f0.logical)) = true := by
    rw [List.all_eq_true]
    intro f hf
    rw [decide_eq_true_eq, hL f (List.mem_cons_of_mem f0 hf), h0]
  refine ⟨⟨f0.logical, unionPhysicalBox f0 rest,
    (f0 :: rest).foldl
      (fun v f => overwriteSubvol v (f.physical.unshift (unionPhysicalBox f0 rest).lo) f.vol)
      zerosVol, false⟩, ?_, h0, rfl, ?_, ?_⟩
  · have hint' : ¬ interiorEmpty ((unionPhysicalBox f0 rest).inter f0.logical) := by
      rw [h0]; exact hint
    show assembleE (f0 :: rest) = _
    simp only [assembleE]
    rw [if_pos hall, if_neg hint']
    rw [assembleLoop_ok _ _ _ hnd]
  · intro p f hf hmem
    exact foldVol_covered _ p (f0 :: rest) zerosVol hdisj f hf hmem
  · intro p hout
    exact foldVol_untouched _ p (f0 :: rest) zerosVol hout

/-- The shared logical box of the witness fragments. -/
def c1L : Box3 := ⟨⟨0, 0, 0⟩, ⟨2, 2, 2⟩⟩

/-- Left fragment: the slab `[(0,0,0),(1,2,2))`. -/
def c1fragA : BrickL ℤ := ⟨c1L, ⟨⟨0, 0, 0⟩, ⟨1, 2, 2⟩⟩, fun _ => 1, false⟩

/-- Right fragment: the slab `[(1,0,0),(2,2,2))`. -/
def c1fragB : BrickL ℤ := ⟨c1L, ⟨⟨1, 0, 0⟩, ⟨2, 2, 2⟩⟩, fun _ => 2, false⟩

theorem assemble_brick_fragments_spec_witness :
    ¬ interiorEmpty (Box3.inter (unionPhysicalBox c1fragA [c1fragB]) c1L) ∧
    ∃ brick : BrickL ℤ,
      assembleE (c1fragA :: [c1fragB]) =
        .ok (some brick, (c1fragA :: [c1fragB]).map BrickL.destroy) ∧
      brick.logical = c1L ∧
      brick.physical = unionPhysicalBox c1fragA [c1fragB] ∧
      (∀ (p : V3) (f : BrickL ℤ), f ∈ c1fragA :: [c1fragB] → Box3.memB p f.physical →
        brick.vol (p.sub (unionPhysicalBox c1fragA [c1fragB]).lo) =
          f.vol (p.sub f.physical.lo)) ∧
      (∀ p : V3, (∀ f ∈ c1fragA :: [c1fragB], ¬ Box3.memB p f.physical) →
        brick.vol (p.sub (unionPhysicalBox c1fragA [c1fragB]).lo) = 0) :=
  ⟨by decide,
   assemble_brick_fragments_spec c1fragA [c1fragB] c1L (by decide) (by decide)
     (by decide) (by decide)⟩

/-! ## Dropping halo-only destinations (brick.py lines 565–568, 470–472) -/

/-- Members of a successful `mapME` come from members of the input. -/
lemma mapME_mem {β γ : Type} (f : β → Except String γ) :
    ∀ (l : List β) (out : List γ), mapME f l = .ok out →
      ∀ c ∈ out, ∃ b ∈ l, f b = .ok c := by
  intro l
  induction l with
  | nil =>
    intro out hout c hc
    cases hout
    cases hc
  | cons b rest ih =>
    intro out hout c hc
    unfold mapME at hout
    cases hfb : f b with
    | error e => rw [hfb] at hout; cases hout
    | ok c0 =>
      rw [hfb] at hout
      cases hrest : mapME f rest with
      | error e => rw [hrest] at hout; cases hout
      | ok cs =>
        rw [hrest] at hout
        cases hout
        rcases List.mem_cons.mp hc with rfl | hc'
        · exact ⟨b, List.mem_cons_self b rest, hfb⟩
        · obtain ⟨b', hb', hfb'⟩ := ih cs hrest c hc'
          exact ⟨b', List.mem_cons_of_mem b hb', hfb'⟩

/-- The group attached to a key in `groupByKey` is its `lookupGroup`. -/
lemma groupByKey_group {α : Type} {pairs : List (KeyH × BrickL α)}
    {kg : Box3 × List (BrickL α)} (h : kg ∈ groupByKey pairs) :
    kg.2 = lookupGroup kg.1 pairs := by
  unfold groupByKey at h
  obtain ⟨k', _, rfl⟩ := List.mem_map.mp h
  rfl

/-- C6 — a fragment group whose min/max union misses the shared logical
box assembles to `None` (no error is raised), and `realign` emits no
entry for a destination whose group assembles to `None`. -/
theorem halo_only_destination_dropped {α : Type} [Zero α] :
    (∀ (f0 : BrickL α) (rest : List (BrickL α)) (L : Box3),
      (∀ f ∈ f0 :: rest, f.logical = L) →
      interiorEmpty (Box3.inter (unionPhysicalBox f0 rest) L) →
      assembleE (f0 :: rest) = .ok (none, f0 :: rest)) ∧
    (∀ (newGrid : Grid3) (bricks : List (BrickL α)) (k : Box3) (ks : List Box3),
      assembleOfKeyE newGrid bricks k = .ok none →
      realignKeysE newGrid bricks = .ok ks →
      k ∉ ks) := by
  constructor
  · intro f0 rest L hL hint
    have h0 : f0.logical = L := hL f0 (List.mem_cons_self f0 rest)
    have hall : (rest.all fun f => decide (f.logical = f0.logical)) = true := by
      rw [List.all_eq_true]
      intro f hf
      rw [decide_eq_true_eq, hL f (List.mem_cons_of_mem f0 hf), h0]
    have hint' : interiorEmpty ((unionPhysicalBox f0 rest).inter f0.logical) := by
      rw [h0]; exact hint
    simp only [assembleE]
    rw [if_pos hall, if_pos hint']
  · intro newGrid bricks k ks hA hR hk
    unfold assembleOfKeyE at hA
    unfold realignKeysE realignE at hR
    cases hsp : splitPairsE newGrid bricks with
    | error e => simp only [hsp] at hA; cases hA
    | ok pairs =>
      simp only [hsp] at hA hR
      cases hag : assembleE (lookupGroup k pairs) with
      | error e => simp only [hag] at hA; cases hA
      | ok r0 =>
        simp only [hag, Except.ok.injEq] at hA
        cases hm : mapME (fun kg =>
            match assembleE kg.2 with
            | .error e => .error e
            | .ok r => .ok (kg.1, r.1)) (groupByKey pairs) with
        | error e => simp only [hm] at hR; cases hR
        | ok assembled =>
          simp only [hm, Except.ok.injEq] at hR
          subst hR
          obtain ⟨x, hx, hx1⟩ := List.mem_map.mp hk
          obtain ⟨kb, hkb, hg⟩ := List.mem_filterMap.mp hx
          cases hob : kb.2 with
          | none => rw [hob] at hg; cases hg
          | some b =>
            rw [hob] at hg
            simp only [Option.map_some', Option.some.injEq] at hg
            obtain ⟨kg, hkg, hstep⟩ := mapME_mem _ _ _ hm kb hkb
            cases has : assembleE kg.2 with
            | error e => simp only [has] at hstep; cases hstep
            | ok r =>
              simp only [has, Except.ok.injEq] at hstep
              have hgrp := groupByKey_group hkg
              have hk1 : kg.1 = k := by
                have hkb1 : kb.1 = k := by rw [← hg] at hx1; simpa using hx1
                rw [← hkb1, ← hstep]
              rw [hgrp, hk1, hag] at has
              cases has
              have hr1 : r0.1 = some b := by
                rw [← hstep] at hob
                simpa using hob
              rw [hA] at hr1
              cases hr1

/-- A destination grid with a halo: block (2,2,2), halo (1,1,1). -/
def c6grid : Grid3 := ⟨⟨2, 2, 2⟩, ⟨0, 0, 0⟩, ⟨1, 1, 1⟩⟩

/-- A source brick all of whose data lies outside the destination cell
`[(0,0,0),(2,2,2))` — it feeds that cell through its halo only. -/
def c6brick : BrickL ℤ := ⟨⟨⟨2, 0, 0⟩, ⟨4, 2, 2⟩⟩, ⟨⟨2, 0, 0⟩, ⟨4, 2, 2⟩⟩, fun _ => 9, false⟩

/-- The halo-only destination cell. -/
def c6key : Box3 := ⟨⟨0, 0, 0⟩, ⟨2, 2, 2⟩⟩

set_option maxRecDepth 100000 in
theorem halo_only_destination_dropped_witness :
    assembleOfKeyE c6grid [c6brick] c6key = .ok none ∧
    realignKeysE c6grid [c6brick] = .ok [⟨⟨2, 0, 0⟩, ⟨4, 2, 2⟩⟩] ∧
    c6key ∉ [(⟨⟨2, 0, 0⟩, ⟨4, 2, 2⟩⟩ : Box3)] :=
  ⟨rfl, by decide,
   (halo_only_destination_dropped (α := ℤ)).2 c6grid [c6brick] c6key
     [⟨⟨2, 0, 0⟩, ⟨4, 2, 2⟩⟩] rfl (by decide)⟩
